import Mathlib

/-!
# Bootstrap reconciler: `pkg/controllers/bootstrap/bootstrap.go`

A shallow embedding of the bootstrap handler of the fleet controller and the
properties of it that the specification states.

Conventions of the embedding

* A Go `string` is a Lean `String`, a Go `[]byte` is a `List UInt8`, and the
  conversion `[]byte(s)` is the UTF-8 encoding `bytesOf s`.
* A Go function returning `(T, error)` returns an `Outcome T`: a normal return
  with a nil error, a return with a non-nil error, or a run-time panic (the
  function does not return to its caller).
* The collaborators of the package are parameters: the kubeconfig handle
  (`clientcmd.ClientConfig`), the serializer `clientcmd.Write`, the file system
  behind `ioutil.ReadFile`, and the apply engine (`apply.Apply`).
* A `range` loop over a Go map starts at an entry chosen by the run time.  Each
  such loop takes its choice as an explicit argument `pick`.
* Effects are recorded: the paths handed to `ioutil.ReadFile` and the argument
  lists handed to `ApplyObjects`.
-/

namespace bootstrap

/-! ## Go values -/

/-- A Go byte slice. -/
abbrev Bytes := List UInt8

/-- The Go conversion from a string to a byte slice: the UTF-8 bytes of the string. -/
def bytesOf (s : String) : Bytes :=
  s.data.flatMap String.utf8EncodeChar

/-- A non-nil Go error value. -/
structure GoError where
  msg : String
  deriving DecidableEq, Repr

/-- Result of calling a Go function of result type `(α, error)`. -/
inductive Outcome (α : Type) where
  /-- The function returned the value with a nil error. -/
  | ret (v : α) : Outcome α
  /-- The function returned a non-nil error. -/
  | err (e : GoError) : Outcome α
  /-- The function panicked (nil pointer dereference); nothing is returned. -/
  | panic : Outcome α
  deriving DecidableEq, Repr

deriving instance DecidableEq for Except

/-- Result of an external call of result type `(α, error)` seen as an outcome. -/
def Outcome.ofExcept {α : Type} : Except GoError α → Outcome α
  | .ok v => .ret v
  | .error e => .err e

/-- A Go `error` result (nil or an error) seen as an outcome. -/
def Outcome.ofError : Option GoError → Outcome Unit
  | none => .ret ()
  | some e => .err e

/-! ## The kubeconfig structure (`k8s.io/client-go/tools/clientcmd/api`) -/

namespace clientcmdapi

/-- The fields of `api.Cluster` that the package reads. -/
structure Cluster where
  Server : String
  CertificateAuthority : String
  CertificateAuthorityData : Bytes
  deriving DecidableEq, Repr

/-- The Go map `map[string]*Cluster`: its entries, with pairwise distinct keys.
The entries stored in the map are records (non-nil pointers); the nil pointer
only arises as the zero value of a failed lookup. -/
structure ClusterMap where
  entries : List (String × Cluster)
  nodupKeys : (entries.map Prod.fst).Nodup

/-- The Go map index expression `m[key]` in its two-result form: `some c` when the key
is present (`ok` is true), `none` when it is absent (the value is the nil pointer). -/
def ClusterMap.lookup (m : ClusterMap) (key : String) : Option Cluster :=
  m.entries.lookup key

/-- The first entry visited by `for _, v := range m`: none when the map is empty,
otherwise the entry selected by the run time's choice `pick`. -/
def ClusterMap.rangeFirst (m : ClusterMap) (pick : Nat) : Option Cluster :=
  (m.entries[pick % m.entries.length]?).map Prod.snd

/-- The fields of `api.Config` that the package reads. -/
structure Config where
  CurrentContext : String
  Clusters : ClusterMap

end clientcmdapi

/-- The interface `clientcmd.ClientConfig`: the result of its `RawConfig()` method. -/
structure ClientConfig where
  RawConfig : Except GoError clientcmdapi.Config

/-- External operations used by the package. -/
structure Env where
  /-- `clientcmd.Write`: serialization of a kubeconfig. -/
  Write : clientcmdapi.Config → Except GoError Bytes
  /-- `ioutil.ReadFile`: contents of the file at a path. -/
  ReadFile : String → Except GoError Bytes

/-! ## Produced resources -/

namespace metav1

/-- The fields of `metav1.ObjectMeta` that the package sets. -/
structure ObjectMeta where
  Name : String
  Namespace : String := ""
  Labels : List (String × String) := []
  deriving DecidableEq, Repr

/-- The field of `metav1.LabelSelector` that the package sets. -/
structure LabelSelector where
  MatchLabels : List (String × String)
  deriving DecidableEq, Repr

end metav1

namespace corev1

/-- A `corev1.Namespace`. -/
structure Namespace where
  ObjectMeta : metav1.ObjectMeta
  deriving DecidableEq, Repr

/-- A `corev1.Secret`; `Data` lists the entries of the map literal in source order. -/
structure Secret where
  ObjectMeta : metav1.ObjectMeta
  Data : List (String × Bytes)
  deriving DecidableEq, Repr

end corev1

namespace fleet

/-- Modelled from the spec: the resource types of `pkg/apis/fleet.cattle.io/v1alpha1` are
not among the sources; a Cluster references the secret by name. -/
structure ClusterSpec where
  KubeConfigSecret : String
  deriving DecidableEq, Repr

/-- Modelled from the spec: the type `fleet.Cluster`, with the fields the handler sets. -/
structure Cluster where
  ObjectMeta : metav1.ObjectMeta
  Spec : ClusterSpec
  deriving DecidableEq, Repr

/-- Modelled from the spec: a ClusterGroup selects clusters by label. -/
structure ClusterGroupSpec where
  Selector : metav1.LabelSelector
  deriving DecidableEq, Repr

/-- Modelled from the spec: the type `fleet.ClusterGroup`, with the fields the handler
sets. -/
structure ClusterGroup where
  ObjectMeta : metav1.ObjectMeta
  Spec : ClusterGroupSpec
  deriving DecidableEq, Repr

/-- Modelled from the spec: the repository, branch, client secret and bundle directories
of a GitRepo. -/
structure GitRepoSpec where
  Repo : String
  Branch : String
  ClientSecretName : String
  BundleDirs : List String
  deriving DecidableEq, Repr

/-- Modelled from the spec: the type `fleet.GitRepo`, with the fields the handler sets. -/
structure GitRepo where
  ObjectMeta : metav1.ObjectMeta
  Spec : GitRepoSpec
  deriving DecidableEq, Repr

end fleet

namespace runtime

/-- The values of `runtime.Object` that the handler builds. -/
inductive Object where
  | Namespace (o : corev1.Namespace)
  | Secret (o : corev1.Secret)
  | Cluster (o : fleet.Cluster)
  | ClusterGroup (o : fleet.ClusterGroup)
  | GitRepo (o : fleet.GitRepo)
  deriving DecidableEq, Repr

/-- The resource kinds. -/
inductive Kind where
  | Namespace | Secret | Cluster | ClusterGroup | GitRepo
  deriving DecidableEq, Repr

/-- The kind of an object. -/
def Object.kind : Object → Kind
  | .Namespace _ => .Namespace
  | .Secret _ => .Secret
  | .Cluster _ => .Cluster
  | .ClusterGroup _ => .ClusterGroup
  | .GitRepo _ => .GitRepo

end runtime

/-! ## Configuration (`pkg/config`) -/

namespace config

/-- Modelled from the spec: the declaration of the configuration (`pkg/config`) is not
among the sources.  The bootstrap section of the configuration snapshot: namespace (or
the sentinel "-"), repository, secret reference, comma-separated bundle directories and
branch, under the field names that `OnConfig` reads. -/
structure Bootstrap where
  Namespace : String
  Repo : String
  Secret : String
  Dirs : String
  Branch : String
  deriving DecidableEq, Repr

/-- Modelled from the spec: the configuration snapshot handed to `OnConfig`. -/
structure Config where
  Bootstrap : Bootstrap
  deriving DecidableEq, Repr

end config

/-! ## The splitter `regexp.MustCompile("\\s*,\\s*")` -/

namespace splitter

/-- The class `\s` of Go regular expressions: tab, newline, form feed, carriage
return and space. -/
def isSpace (c : Char) : Bool :=
  c == '\t' || c == '\n' || c == '\x0c' || c == '\r' || c == ' '

/-- Length of the match of `\s*,\s*` that starts at the head of the text, if there is
one.  Both stars are greedy: a run of white space, one comma, a run of white space. -/
def matchLen (s : List Char) : Option Nat :=
  match s.dropWhile isSpace with
  | [] => none
  | c :: rest =>
    if c = ',' then some ((s.takeWhile isSpace).length + 1 + (rest.takeWhile isSpace).length)
    else none

/-- The pieces of the text between the successive leftmost matches of `\s*,\s*`.
`skip` counts the characters of the current match that are still to be passed. -/
def pieces : List Char → Nat → List (List Char)
  | [], _ => [[]]
  | _ :: cs, skip + 1 => pieces cs skip
  | c :: cs, 0 =>
    match matchLen (c :: cs) with
    | some n => [] :: pieces cs (n - 1)
    | none => (pieces cs 0).modifyHead (c :: ·)

/-- The call `splitter.Split(s, -1)`: every match of the expression is non-empty, so
the result is the text before the first match, between consecutive matches and
after the last one; the empty text gives one empty string. -/
def Split (s : String) : List String :=
  (pieces s.data 0).map String.mk

end splitter

/-! ## The handler -/

/-- The interface `apply.Apply`: the error (or nil) with which `ApplyObjects` answers
a list of objects. -/
structure Apply where
  ApplyObjects : List runtime.Object → Option GoError

/-- The type `handler`. -/
structure handler where
  apply : Apply
  cfg : ClientConfig

/-- The function `getHost`.  When the current context is not a key of the map and the
map is empty, `cluster` is the nil pointer and `cluster.Server` panics. -/
def getHost (cfg : ClientConfig) (pick : Nat) : Outcome String :=
  match cfg.RawConfig with
  | .error e => .err e
  | .ok rawConfig =>
    match rawConfig.Clusters.lookup rawConfig.CurrentContext with
    | some cluster => .ret cluster.Server
    | none =>
      match rawConfig.Clusters.rangeFirst pick with
      | some v => .ret v.Server
      | none => .panic

/-- A computation together with the paths it handed to `ioutil.ReadFile`. -/
structure Traced (α : Type) where
  reads : List String
  out : Outcome α
  deriving DecidableEq, Repr

/-- The function `getCA`.  When the current context is not a key of the map and the
map is empty, `cluster` stays the nil pointer and reading its field panics. -/
def getCA (env : Env) (cfg : ClientConfig) (pick : Nat) : Traced Bytes :=
  match cfg.RawConfig with
  | .error e => ⟨[], .err e⟩
  | .ok rawConfig =>
    let cluster :=
      match rawConfig.Clusters.lookup rawConfig.CurrentContext with
      | some c => some c
      | none => rawConfig.Clusters.rangeFirst pick
    match cluster with
    | none => ⟨[], .panic⟩
    | some cluster =>
      if cluster.CertificateAuthorityData.length > 0 then
        ⟨[], .ret cluster.CertificateAuthorityData⟩
      else
        ⟨[cluster.CertificateAuthority], .ofExcept (env.ReadFile cluster.CertificateAuthority)⟩

/-- The function `getSecret`; `pickHost` and `pickCA` are the choices of the map
iterations inside `getHost` and `getCA`. -/
def getSecret (env : Env) (bootstrapNamespace : String) (cfg : ClientConfig)
    (pickHost pickCA : Nat) : Traced corev1.Secret :=
  match cfg.RawConfig with
  | .error e => ⟨[], .err e⟩
  | .ok rawConfig =>
    match env.Write rawConfig with
    | .error e => ⟨[], .err e⟩
    | .ok value =>
      match getHost cfg pickHost with
      | .err e => ⟨[], .err e⟩
      | .panic => ⟨[], .panic⟩
      | .ret host =>
        match getCA env cfg pickCA with
        | ⟨reads, .err e⟩ => ⟨reads, .err e⟩
        | ⟨reads, .panic⟩ => ⟨reads, .panic⟩
        | ⟨reads, .ret ca⟩ =>
          ⟨reads, .ret
            { ObjectMeta := { Name := "local-cluster", Namespace := bootstrapNamespace }
              Data := [("value", value), ("apiServerURL", bytesOf host), ("apiServerCA", ca)] }⟩

/-- What one invocation of the handler did: the files it read, the final value of its
local variable `objs`, the argument list of each call of `ApplyObjects`, and what it
returned. -/
structure Run where
  reads : List String
  objs : List runtime.Object
  applied : List (List runtime.Object)
  result : Outcome Unit
  deriving DecidableEq, Repr

/-- The four objects appended first by `OnConfig`. -/
def baseObjects (config : config.Config) (secret : corev1.Secret) : List runtime.Object :=
  [ .Namespace { ObjectMeta := { Name := config.Bootstrap.Namespace } },
    .Secret secret,
    .Cluster
      { ObjectMeta :=
          { Name := "local", Namespace := config.Bootstrap.Namespace,
            Labels := [("name", "local")] }
        Spec := { KubeConfigSecret := secret.ObjectMeta.Name } },
    .ClusterGroup
      { ObjectMeta := { Name := "default", Namespace := config.Bootstrap.Namespace }
        Spec := { Selector := { MatchLabels := [("name", "local")] } } } ]

/-- The git repository object appended when a repository is configured. -/
def gitRepoObject (config : config.Config) : runtime.Object :=
  .GitRepo
    { ObjectMeta := { Name := "bootstrap", Namespace := config.Bootstrap.Namespace }
      Spec :=
        { Repo := config.Bootstrap.Repo
          Branch := config.Bootstrap.Branch
          ClientSecretName := config.Bootstrap.Secret
          BundleDirs := splitter.Split config.Bootstrap.Dirs } }

/-- The value of `objs` when `OnConfig` calls `ApplyObjects`. -/
def desiredObjects (config : config.Config) (secret : corev1.Secret) : List runtime.Object :=
  if config.Bootstrap.Repo ≠ "" then baseObjects config secret ++ [gitRepoObject config]
  else baseObjects config secret

/-- The method `handler.OnConfig`. -/
def OnConfig (h : handler) (env : Env) (config : config.Config) (pickHost pickCA : Nat) : Run :=
  if config.Bootstrap.Namespace = "" ∨ config.Bootstrap.Namespace = "-" then
    ⟨[], [], [], .ret ()⟩
  else
    match getSecret env config.Bootstrap.Namespace h.cfg pickHost pickCA with
    | ⟨reads, .err e⟩ => ⟨reads, [], [], .err e⟩
    | ⟨reads, .panic⟩ => ⟨reads, [], [], .panic⟩
    | ⟨reads, .ret secret⟩ =>
      ⟨reads, desiredObjects config secret, [desiredObjects config secret],
        .ofError (h.apply.ApplyObjects (desiredObjects config secret))⟩

/-! ## Bundle directories in the words of the specification -/

namespace spec

/-- The text without its leading and trailing white space. -/
def trim (s : List Char) : List Char :=
  (s.dropWhile splitter.isSpace).rdropWhile splitter.isSpace

/-- The bundle directories in the words of the specification: the text split on commas,
white space trimmed around each entry. -/
def bundleDirs (dirs : String) : List String :=
  (dirs.data.splitOn ',').map fun entry => String.mk (trim entry)

end spec

namespace splitter

/-- Leading white space removed from every piece, trailing white space from every piece
but the last. -/
def trimAfter : List (List Char) → List (List Char)
  | [] => []
  | [p] => [p.dropWhile isSpace]
  | p :: q :: r => (p.dropWhile isSpace).rdropWhile isSpace :: trimAfter (q :: r)

/-- White space next to a separating comma removed: trailing white space from every piece
but the last, leading white space from every piece but the first. -/
def trimInner : List (List Char) → List (List Char)
  | [] => []
  | [p] => [p]
  | p :: q :: r => p.rdropWhile isSpace :: trimAfter (q :: r)

end splitter

/-! ## Auxiliary definitions -/

/-- The cluster that `getHost` and `getCA` resolve: the entry of the current context,
else the first entry of an iteration over the map. -/
def resolve (rawConfig : clientcmdapi.Config) (pick : Nat) : Option clientcmdapi.Cluster :=
  match rawConfig.Clusters.lookup rawConfig.CurrentContext with
  | some c => some c
  | none => rawConfig.Clusters.rangeFirst pick

/-! ## Sample data -/

/-- A serializer that always succeeds and a file system without files. -/
def sampleEnv : Env where
  Write := fun _ => .ok (bytesOf "kubeconfig")
  ReadFile := fun _ => .error ⟨"no such file"⟩

/-- An apply engine that accepts everything. -/
def sampleApply : Apply where
  ApplyObjects := fun _ => none

/-- A kubeconfig handle whose read fails. -/
def brokenConfig : ClientConfig where
  RawConfig := .error ⟨"cannot load kubeconfig"⟩

/-- A configuration with bootstrap switched off by the sentinel. -/
def disabledConfig : config.Config where
  Bootstrap := { Namespace := "-", Repo := "https://example.com/repo", Secret := "", Dirs := "", Branch := "master" }

/-- A bootstrap configuration without a repository. -/
def enabledConfig : config.Config where
  Bootstrap := { Namespace := "fleet-local", Repo := "", Secret := "", Dirs := "", Branch := "" }

/-- A bootstrap configuration with a repository and bundle directories. -/
def repoConfig : config.Config where
  Bootstrap :=
    { Namespace := "fleet-local", Repo := "https://example.com/repo", Secret := "git-auth",
      Dirs := " a , b,c ", Branch := "master" }

/-- A bootstrap configuration whose bundle directories carry white space only next to
the commas. -/
def tidyConfig : config.Config where
  Bootstrap :=
    { Namespace := "fleet-local", Repo := "https://example.com/repo", Secret := "git-auth",
      Dirs := "a , b,c", Branch := "master" }

/-- A cluster entry with an inline certificate authority. -/
def clusterA : clientcmdapi.Cluster where
  Server := "https://10.0.0.1:6443"
  CertificateAuthority := ""
  CertificateAuthorityData := bytesOf "CERT_A"

/-- A second cluster entry with an inline certificate authority. -/
def clusterB : clientcmdapi.Cluster where
  Server := "https://10.0.0.2:6443"
  CertificateAuthority := ""
  CertificateAuthorityData := bytesOf "CERT_B"

/-- A cluster entry whose certificate authority is in a file. -/
def clusterF : clientcmdapi.Cluster where
  Server := "https://10.0.0.3:6443"
  CertificateAuthority := "/etc/fleet/ca.crt"
  CertificateAuthorityData := []

/-- A kubeconfig whose current context names its only cluster. -/
def kubeconfigA : clientcmdapi.Config where
  CurrentContext := "ctx-a"
  Clusters := ⟨[("ctx-a", clusterA)], by decide⟩

/-- A kubeconfig whose current context is not a cluster name, with one cluster. -/
def kubeconfigOne : clientcmdapi.Config where
  CurrentContext := "gone"
  Clusters := ⟨[("only", clusterA)], by decide⟩

/-- A kubeconfig whose current context is not a cluster name, with two clusters. -/
def kubeconfigTwo : clientcmdapi.Config where
  CurrentContext := "gone"
  Clusters := ⟨[("a", clusterA), ("b", clusterB)], by decide⟩

/-- A kubeconfig whose only cluster keeps its certificate authority in a file. -/
def kubeconfigF : clientcmdapi.Config where
  CurrentContext := "ctx-f"
  Clusters := ⟨[("ctx-f", clusterF)], by decide⟩

/-- A kubeconfig without clusters. -/
def kubeconfigEmpty : clientcmdapi.Config where
  CurrentContext := ""
  Clusters := ⟨[], List.nodup_nil⟩

/-- The secret built from `kubeconfigA` in the namespace "fleet-local". -/
def secretA : corev1.Secret where
  ObjectMeta := { Name := "local-cluster", Namespace := "fleet-local" }
  Data :=
    [("value", bytesOf "kubeconfig"), ("apiServerURL", bytesOf "https://10.0.0.1:6443"),
      ("apiServerCA", bytesOf "CERT_A")]

/-- A handler over a readable kubeconfig and the accepting apply engine. -/
def sampleHandler (rawConfig : clientcmdapi.Config) : handler where
  apply := sampleApply
  cfg := ⟨.ok rawConfig⟩

/-! ## Theorems -/

/-- C1: when the bootstrap namespace is the empty string or the sentinel "-", OnConfig
returns nil, leaves `objs` empty, reads no file and never calls ApplyObjects, whatever
the kubeconfig handle answers. -/
theorem OnConfig_disabled (h : handler) (env : Env) (config : config.Config)
    (pickHost pickCA : Nat)
    (hns : config.Bootstrap.Namespace = "" ∨ config.Bootstrap.Namespace = "-") :
    OnConfig h env config pickHost pickCA = ⟨[], [], [], .ret ()⟩ := by
  simp [OnConfig, hns]

/-- Witness of C1 with a handle whose read fails. -/
theorem OnConfig_disabled_witness :
    (disabledConfig.Bootstrap.Namespace = "" ∨ disabledConfig.Bootstrap.Namespace = "-") ∧
      OnConfig ⟨sampleApply, brokenConfig⟩ sampleEnv disabledConfig 0 0 = ⟨[], [], [], .ret ()⟩ :=
  ⟨Or.inr rfl, OnConfig_disabled ⟨sampleApply, brokenConfig⟩ sampleEnv disabledConfig 0 0 (Or.inr rfl)⟩

/-! ### The cluster map -/

namespace clientcmdapi

theorem lookup_entries_of_mem {key : String} {c : Cluster} :
    ∀ (l : List (String × Cluster)), (l.map Prod.fst).Nodup → (key, c) ∈ l →
      l.lookup key = some c
  | [], _, hmem => by simp at hmem
  | (k, v) :: es, hnd, hmem => by
    rw [List.map_cons, List.nodup_cons] at hnd
    rcases List.mem_cons.mp hmem with heq | htail
    · cases heq
      simp [List.lookup]
    · have hne : key ≠ k := by
        intro hk
        subst hk
        exact hnd.1 (List.mem_map.mpr ⟨(key, c), htail, rfl⟩)
      have hbeq : (key == k) = false := by simpa using hne
      simp only [List.lookup, hbeq]
      exact lookup_entries_of_mem es hnd.2 htail

theorem lookup_entries_of_not_mem {key : String} :
    ∀ (l : List (String × Cluster)), key ∉ l.map Prod.fst → l.lookup key = none
  | [], _ => rfl
  | (k, v) :: es, hnot => by
    rw [List.map_cons, List.mem_cons, not_or] at hnot
    have hbeq : (key == k) = false := by simpa using hnot.1
    simp only [List.lookup, hbeq]
    exact lookup_entries_of_not_mem es hnot.2

theorem mem_of_lookup_entries {key : String} {c : Cluster} :
    ∀ (l : List (String × Cluster)), l.lookup key = some c → (key, c) ∈ l
  | [], h => by simp [List.lookup] at h
  | (k, v) :: es, h => by
    by_cases hk : key = k
    · subst hk
      simp [List.lookup] at h
      simp [h]
    · have hbeq : (key == k) = false := by simpa using hk
      simp only [List.lookup, hbeq] at h
      exact List.mem_cons_of_mem _ (mem_of_lookup_entries es h)

/-- A key that the map holds is found by the index expression. -/
theorem ClusterMap.lookup_of_mem (m : ClusterMap) {key : String} {c : Cluster}
    (hmem : (key, c) ∈ m.entries) : m.lookup key = some c :=
  lookup_entries_of_mem m.entries m.nodupKeys hmem

/-- A key that the map does not hold is not found. -/
theorem ClusterMap.lookup_of_not_mem (m : ClusterMap) {key : String}
    (hnot : key ∉ m.entries.map Prod.fst) : m.lookup key = none :=
  lookup_entries_of_not_mem m.entries hnot

/-- What the index expression finds is an entry of the map. -/
theorem ClusterMap.mem_of_lookup (m : ClusterMap) {key : String} {c : Cluster}
    (h : m.lookup key = some c) : (key, c) ∈ m.entries :=
  mem_of_lookup_entries m.entries h

/-- Iterating over a map with one entry starts at that entry. -/
theorem ClusterMap.rangeFirst_single (m : ClusterMap) {name : String} {c : Cluster}
    (hone : m.entries = [(name, c)]) (pick : Nat) : m.rangeFirst pick = some c := by
  simp [ClusterMap.rangeFirst, hone, Nat.mod_one]

/-- What an iteration visits first is an entry of the map. -/
theorem ClusterMap.mem_of_rangeFirst (m : ClusterMap) {pick : Nat} {c : Cluster}
    (h : m.rangeFirst pick = some c) : ∃ name, (name, c) ∈ m.entries := by
  unfold ClusterMap.rangeFirst at h
  rcases Option.map_eq_some'.mp h with ⟨⟨name, c'⟩, hget, hc⟩
  cases hc
  exact ⟨name, List.getElem?_mem hget⟩

/-- Every entry of the map is the first one visited under some choice of the run time. -/
theorem ClusterMap.rangeFirst_complete (m : ClusterMap) {name : String} {c : Cluster}
    (hmem : (name, c) ∈ m.entries) : ∃ pick, m.rangeFirst pick = some c := by
  rcases List.getElem_of_mem hmem with ⟨i, hi, hget⟩
  refine ⟨i, ?_⟩
  simp [ClusterMap.rangeFirst, Nat.mod_eq_of_lt hi, List.getElem?_eq_getElem hi, hget]

/-- An iteration over an empty map visits nothing. -/
theorem ClusterMap.rangeFirst_empty (m : ClusterMap) (hempty : m.entries = []) (pick : Nat) :
    m.rangeFirst pick = none := by
  simp [ClusterMap.rangeFirst, hempty]

end clientcmdapi

/-! ### Connection extraction -/

theorem getHost_eq (cfg : ClientConfig) (rawConfig : clientcmdapi.Config) (pick : Nat)
    (hraw : cfg.RawConfig = .ok rawConfig) :
    getHost cfg pick =
      match resolve rawConfig pick with
      | some c => .ret c.Server
      | none => .panic := by
  unfold getHost resolve
  rw [hraw]
  dsimp only
  cases rawConfig.Clusters.lookup rawConfig.CurrentContext <;> rfl

theorem getCA_eq (env : Env) (cfg : ClientConfig) (rawConfig : clientcmdapi.Config) (pick : Nat)
    (hraw : cfg.RawConfig = .ok rawConfig) :
    getCA env cfg pick =
      match resolve rawConfig pick with
      | none => ⟨[], .panic⟩
      | some c =>
        if c.CertificateAuthorityData.length > 0 then ⟨[], .ret c.CertificateAuthorityData⟩
        else ⟨[c.CertificateAuthority], .ofExcept (env.ReadFile c.CertificateAuthority)⟩ := by
  unfold getCA resolve
  rw [hraw]

theorem getCA_of_resolve (env : Env) (cfg : ClientConfig) (rawConfig : clientcmdapi.Config)
    (pick : Nat) (c : clientcmdapi.Cluster) (hraw : cfg.RawConfig = .ok rawConfig)
    (hres : resolve rawConfig pick = some c) :
    (c.CertificateAuthorityData ≠ [] →
        getCA env cfg pick = ⟨[], .ret c.CertificateAuthorityData⟩) ∧
      (c.CertificateAuthorityData = [] →
        getCA env cfg pick =
          ⟨[c.CertificateAuthority], .ofExcept (env.ReadFile c.CertificateAuthority)⟩) := by
  rw [getCA_eq env cfg rawConfig pick hraw, hres]
  constructor
  · intro hne
    have hpos : c.CertificateAuthorityData.length > 0 := List.length_pos.mpr hne
    simp [hpos]
  · intro hnil
    simp [hnil]

/-- C6: when the current context is a key of the cluster map, getHost returns the server
of that entry, and getCA returns the inline certificate authority of that entry
without reading a file when it is non-empty, and otherwise reads exactly the file at
the path of that entry and returns the result of that read. -/
theorem current_context_entry (env : Env) (cfg : ClientConfig)
    (rawConfig : clientcmdapi.Config) (c : clientcmdapi.Cluster) (pickHost pickCA : Nat)
    (hraw : cfg.RawConfig = .ok rawConfig)
    (hctx : (rawConfig.CurrentContext, c) ∈ rawConfig.Clusters.entries) :
    getHost cfg pickHost = .ret c.Server ∧
      (c.CertificateAuthorityData ≠ [] →
        getCA env cfg pickCA = ⟨[], .ret c.CertificateAuthorityData⟩) ∧
      (c.CertificateAuthorityData = [] →
        getCA env cfg pickCA =
          ⟨[c.CertificateAuthority], .ofExcept (env.ReadFile c.CertificateAuthority)⟩) := by
  have hlook := rawConfig.Clusters.lookup_of_mem hctx
  have hres : ∀ pick, resolve rawConfig pick = some c := by
    intro pick
    simp [resolve, hlook]
  refine ⟨?_, getCA_of_resolve env cfg rawConfig pickCA c hraw (hres pickCA)⟩
  rw [getHost_eq cfg rawConfig pickHost hraw, hres pickHost]

/-- Witness of C6: the scenario with context "ctx-a". -/
theorem current_context_entry_witness :
    getHost ⟨.ok kubeconfigA⟩ 0 = .ret "https://10.0.0.1:6443" ∧
      getCA sampleEnv ⟨.ok kubeconfigA⟩ 0 = ⟨[], .ret (bytesOf "CERT_A")⟩ :=
  have h := current_context_entry sampleEnv ⟨.ok kubeconfigA⟩ kubeconfigA clusterA 0 0 rfl
    (by decide)
  ⟨h.1, h.2.1 (by decide)⟩

/-- C7: when the current context is not a key of the cluster map and the map has exactly
one entry, getHost returns the server of that entry whatever the iteration does, and
getCA resolves the certificate authority from that same entry: its inline bytes when
non-empty, else the result of reading its file. -/
theorem single_entry_fallback (env : Env) (cfg : ClientConfig)
    (rawConfig : clientcmdapi.Config) (name : String) (c : clientcmdapi.Cluster)
    (pickHost pickCA : Nat)
    (hraw : cfg.RawConfig = .ok rawConfig)
    (hctx : rawConfig.CurrentContext ∉ rawConfig.Clusters.entries.map Prod.fst)
    (hone : rawConfig.Clusters.entries = [(name, c)]) :
    getHost cfg pickHost = .ret c.Server ∧
      (c.CertificateAuthorityData ≠ [] →
        getCA env cfg pickCA = ⟨[], .ret c.CertificateAuthorityData⟩) ∧
      (c.CertificateAuthorityData = [] →
        getCA env cfg pickCA =
          ⟨[c.CertificateAuthority], .ofExcept (env.ReadFile c.CertificateAuthority)⟩) := by
  have hlook := rawConfig.Clusters.lookup_of_not_mem hctx
  have hres : ∀ pick, resolve rawConfig pick = some c := by
    intro pick
    simp [resolve, hlook, rawConfig.Clusters.rangeFirst_single hone pick]
  refine ⟨?_, getCA_of_resolve env cfg rawConfig pickCA c hraw (hres pickCA)⟩
  rw [getHost_eq cfg rawConfig pickHost hraw, hres pickHost]

/-- Witness of C7: the context "gone" is absent and the map holds one cluster. -/
theorem single_entry_fallback_witness :
    getHost ⟨.ok kubeconfigOne⟩ 5 = .ret "https://10.0.0.1:6443" ∧
      getCA sampleEnv ⟨.ok kubeconfigOne⟩ 7 = ⟨[], .ret (bytesOf "CERT_A")⟩ :=
  have h := single_entry_fallback sampleEnv ⟨.ok kubeconfigOne⟩ kubeconfigOne "only" clusterA
    5 7 rfl (by decide) rfl
  ⟨h.1, h.2.1 (by decide)⟩

/-! ### The secret -/

/-- The secret that `getSecret` assembles from its three ingredients. -/
theorem getSecret_ret_inv (env : Env) (ns : String) (cfg : ClientConfig)
    (pickHost pickCA : Nat) (reads : List String) (secret : corev1.Secret)
    (h : getSecret env ns cfg pickHost pickCA = ⟨reads, .ret secret⟩) :
    ∃ rawConfig value host ca,
      cfg.RawConfig = .ok rawConfig ∧ env.Write rawConfig = .ok value ∧
      getHost cfg pickHost = .ret host ∧ getCA env cfg pickCA = ⟨reads, .ret ca⟩ ∧
      secret =
        { ObjectMeta := { Name := "local-cluster", Namespace := ns }
          Data := [("value", value), ("apiServerURL", bytesOf host), ("apiServerCA", ca)] } := by
  unfold getSecret at h
  split at h
  · cases h
  · rename_i rawConfig hraw
    split at h
    · cases h
    · rename_i value hvalue
      split at h
      · cases h
      · cases h
      · rename_i host hhost
        split at h
        · cases h
        · cases h
        · rename_i reads' ca hca
          cases h
          exact ⟨rawConfig, value, host, ca, hraw, hvalue, hhost, hca, rfl⟩

/-- C3: when getSecret succeeds, the secret is named "local-cluster", lies in the
bootstrap namespace, and its data has exactly the keys "value", "apiServerURL" and
"apiServerCA", holding the serialized kubeconfig, the bytes of the server returned by
getHost and the bytes returned by getCA. -/
theorem getSecret_contents (env : Env) (ns : String) (cfg : ClientConfig)
    (pickHost pickCA : Nat) (reads : List String) (secret : corev1.Secret)
    (h : getSecret env ns cfg pickHost pickCA = ⟨reads, .ret secret⟩) :
    ∃ rawConfig value host ca,
      cfg.RawConfig = .ok rawConfig ∧ env.Write rawConfig = .ok value ∧
      getHost cfg pickHost = .ret host ∧ (getCA env cfg pickCA).out = .ret ca ∧
      secret.ObjectMeta.Name = "local-cluster" ∧ secret.ObjectMeta.Namespace = ns ∧
      secret.Data.map Prod.fst = ["value", "apiServerURL", "apiServerCA"] ∧
      secret.Data = [("value", value), ("apiServerURL", bytesOf host), ("apiServerCA", ca)] := by
  obtain ⟨rawConfig, value, host, ca, hraw, hvalue, hhost, hca, hsec⟩ :=
    getSecret_ret_inv env ns cfg pickHost pickCA reads secret h
  refine ⟨rawConfig, value, host, ca, hraw, hvalue, hhost, ?_, ?_, ?_, ?_, ?_⟩
  · rw [hca]
  all_goals subst hsec; rfl

/-- The secret built for the kubeconfig of the scenario. -/
theorem getSecret_kubeconfigA :
    getSecret sampleEnv "fleet-local" ⟨.ok kubeconfigA⟩ 0 0 = ⟨[], .ret secretA⟩ := by
  decide

/-- Witness of C3: the secret of the scenario with context "ctx-a". -/
theorem getSecret_contents_witness :
    getSecret sampleEnv "fleet-local" ⟨.ok kubeconfigA⟩ 0 0 = ⟨[], .ret secretA⟩ ∧
      secretA.ObjectMeta.Name = "local-cluster" ∧ secretA.ObjectMeta.Namespace = "fleet-local" ∧
      secretA.Data.map Prod.fst = ["value", "apiServerURL", "apiServerCA"] := by
  obtain ⟨_, _, _, _, _, _, _, _, hname, hns, hkeys, _⟩ :=
    getSecret_contents sampleEnv "fleet-local" ⟨.ok kubeconfigA⟩ 0 0 [] secretA
      getSecret_kubeconfigA
  exact ⟨getSecret_kubeconfigA, hname, hns, hkeys⟩

/-! ### The handler -/

/-- With bootstrap enabled the handler is determined by the outcome of `getSecret`. -/
theorem OnConfig_enabled (h : handler) (env : Env) (config : config.Config)
    (pickHost pickCA : Nat)
    (hns : config.Bootstrap.Namespace ≠ "" ∧ config.Bootstrap.Namespace ≠ "-") :
    OnConfig h env config pickHost pickCA =
      match getSecret env config.Bootstrap.Namespace h.cfg pickHost pickCA with
      | ⟨reads, .err e⟩ => ⟨reads, [], [], .err e⟩
      | ⟨reads, .panic⟩ => ⟨reads, [], [], .panic⟩
      | ⟨reads, .ret secret⟩ =>
        ⟨reads, desiredObjects config secret, [desiredObjects config secret],
          .ofError (h.apply.ApplyObjects (desiredObjects config secret))⟩ := by
  unfold OnConfig
  rw [if_neg (by simp [hns.1, hns.2])]

theorem OnConfig_of_ret (h : handler) (env : Env) (config : config.Config)
    (pickHost pickCA : Nat) (reads : List String) (secret : corev1.Secret)
    (hns : config.Bootstrap.Namespace ≠ "" ∧ config.Bootstrap.Namespace ≠ "-")
    (hsec : getSecret env config.Bootstrap.Namespace h.cfg pickHost pickCA =
      ⟨reads, .ret secret⟩) :
    OnConfig h env config pickHost pickCA =
      ⟨reads, desiredObjects config secret, [desiredObjects config secret],
        .ofError (h.apply.ApplyObjects (desiredObjects config secret))⟩ := by
  rw [OnConfig_enabled h env config pickHost pickCA hns, hsec]

theorem OnConfig_of_err (h : handler) (env : Env) (config : config.Config)
    (pickHost pickCA : Nat) (reads : List String) (e : GoError)
    (hns : config.Bootstrap.Namespace ≠ "" ∧ config.Bootstrap.Namespace ≠ "-")
    (hsec : getSecret env config.Bootstrap.Namespace h.cfg pickHost pickCA =
      ⟨reads, .err e⟩) :
    OnConfig h env config pickHost pickCA = ⟨reads, [], [], .err e⟩ := by
  rw [OnConfig_enabled h env config pickHost pickCA hns, hsec]

/-- C2: with bootstrap enabled and a successful getSecret, OnConfig calls ApplyObjects
with one list: Namespace, Secret, Cluster, ClusterGroup in this order when the
repository is the empty string, and these four followed by the GitRepo when it is not;
a GitRepo is in the list exactly when the repository is non-empty. -/
theorem OnConfig_object_sequence (h : handler) (env : Env) (config : config.Config)
    (pickHost pickCA : Nat) (reads : List String) (secret : corev1.Secret)
    (hns : config.Bootstrap.Namespace ≠ "" ∧ config.Bootstrap.Namespace ≠ "-")
    (hsec : getSecret env config.Bootstrap.Namespace h.cfg pickHost pickCA =
      ⟨reads, .ret secret⟩) :
    ∃ objs, (OnConfig h env config pickHost pickCA).applied = [objs] ∧
      (config.Bootstrap.Repo = "" →
        objs = baseObjects config secret ∧
        objs.map runtime.Object.kind = [.Namespace, .Secret, .Cluster, .ClusterGroup]) ∧
      (config.Bootstrap.Repo ≠ "" →
        objs = baseObjects config secret ++ [gitRepoObject config] ∧
        objs.map runtime.Object.kind =
          [.Namespace, .Secret, .Cluster, .ClusterGroup, .GitRepo]) ∧
      ((∃ g, runtime.Object.GitRepo g ∈ objs) ↔ config.Bootstrap.Repo ≠ "") := by
  refine ⟨desiredObjects config secret, ?_, ?_, ?_, ?_⟩
  · rw [OnConfig_of_ret h env config pickHost pickCA reads secret hns hsec]
  · intro hrepo
    simp [desiredObjects, hrepo, baseObjects, runtime.Object.kind]
  · intro hrepo
    simp [desiredObjects, hrepo, baseObjects, gitRepoObject, runtime.Object.kind]
  · by_cases hrepo : config.Bootstrap.Repo = ""
    · simp [desiredObjects, hrepo, baseObjects]
    · simp [desiredObjects, hrepo, baseObjects, gitRepoObject]

/-- Witness of C2: a configuration with a repository gives five objects. -/
theorem OnConfig_object_sequence_witness :
    ∃ objs, (OnConfig (sampleHandler kubeconfigA) sampleEnv repoConfig 0 0).applied = [objs] ∧
      objs.map runtime.Object.kind = [.Namespace, .Secret, .Cluster, .ClusterGroup, .GitRepo] := by
  obtain ⟨objs, happlied, _, hrepo, _⟩ :=
    OnConfig_object_sequence (sampleHandler kubeconfigA) sampleEnv repoConfig 0 0 [] secretA
      (by decide) getSecret_kubeconfigA
  exact ⟨objs, happlied, (hrepo (by decide)).2⟩

/-! ### Error propagation -/

/-- A file that `getCA` read decides its outcome. -/
theorem getCA_out_of_read (env : Env) (cfg : ClientConfig) (pick : Nat) (path : String)
    (hread : path ∈ (getCA env cfg pick).reads) :
    (getCA env cfg pick).out = .ofExcept (env.ReadFile path) := by
  unfold getCA at hread ⊢
  split at hread
  · simp at hread
  · dsimp only at hread ⊢
    split at hread
    · simp at hread
    · split at hread
      · simp at hread
      · rename_i hlen
        simp only [List.mem_singleton] at hread
        subst hread
        rw [if_neg hlen]

/-- A failed read of a file that `getSecret` read is the error of `getSecret`. -/
theorem getSecret_out_of_read (env : Env) (ns : String) (cfg : ClientConfig)
    (pickHost pickCA : Nat) (path : String) (e : GoError)
    (hread : path ∈ (getSecret env ns cfg pickHost pickCA).reads)
    (hfail : env.ReadFile path = .error e) :
    getSecret env ns cfg pickHost pickCA =
      ⟨(getSecret env ns cfg pickHost pickCA).reads, .err e⟩ := by
  cases hraw : cfg.RawConfig with
  | error e' => simp [getSecret, hraw] at hread
  | ok rawConfig =>
    cases hwrite : env.Write rawConfig with
    | error e' => simp [getSecret, hraw, hwrite] at hread
    | ok value =>
      cases hhost : getHost cfg pickHost with
      | err e' => simp [getSecret, hraw, hwrite, hhost] at hread
      | panic => simp [getSecret, hraw, hwrite, hhost] at hread
      | ret host =>
        have hout := getCA_out_of_read env cfg pickCA path
        cases hca : getCA env cfg pickCA with
        | mk reads out =>
          rw [hca] at hout
          cases out with
          | err e' =>
            simp only [getSecret, hraw, hwrite, hhost, hca] at hread ⊢
            have := hout hread
            simp only [hfail, Outcome.ofExcept] at this
            cases this
            rfl
          | panic =>
            simp only [getSecret, hraw, hwrite, hhost, hca] at hread
            have := hout hread
            simp [hfail, Outcome.ofExcept] at this
          | ret ca =>
            simp only [getSecret, hraw, hwrite, hhost, hca] at hread
            have := hout hread
            simp [hfail, Outcome.ofExcept] at this

/-- C8: with bootstrap enabled, an error of reading the kubeconfig, of serializing it,
or of reading the certificate authority file is returned as it is and ApplyObjects is
not called; when getSecret succeeds, ApplyObjects is called exactly once and its
result is returned as it is. -/
theorem OnConfig_error_propagation (h : handler) (env : Env) (config : config.Config)
    (pickHost pickCA : Nat)
    (hns : config.Bootstrap.Namespace ≠ "" ∧ config.Bootstrap.Namespace ≠ "-") :
    (∀ e, h.cfg.RawConfig = .error e →
        (OnConfig h env config pickHost pickCA).applied = [] ∧
        (OnConfig h env config pickHost pickCA).result = .err e) ∧
      (∀ rawConfig e, h.cfg.RawConfig = .ok rawConfig → env.Write rawConfig = .error e →
        (OnConfig h env config pickHost pickCA).applied = [] ∧
        (OnConfig h env config pickHost pickCA).result = .err e) ∧
      (∀ path e, path ∈ (OnConfig h env config pickHost pickCA).reads →
        env.ReadFile path = .error e →
        (OnConfig h env config pickHost pickCA).applied = [] ∧
        (OnConfig h env config pickHost pickCA).result = .err e) ∧
      (∀ reads secret,
        getSecret env config.Bootstrap.Namespace h.cfg pickHost pickCA = ⟨reads, .ret secret⟩ →
        (OnConfig h env config pickHost pickCA).applied = [desiredObjects config secret] ∧
        (OnConfig h env config pickHost pickCA).result =
          .ofError (h.apply.ApplyObjects (desiredObjects config secret))) := by
  refine ⟨?_, ?_, ?_, ?_⟩
  · intro e hraw
    have hsec : getSecret env config.Bootstrap.Namespace h.cfg pickHost pickCA = ⟨[], .err e⟩ := by
      unfold getSecret
      rw [hraw]
    rw [OnConfig_of_err h env config pickHost pickCA [] e hns hsec]
    exact ⟨rfl, rfl⟩
  · intro rawConfig e hraw hwrite
    have hsec : getSecret env config.Bootstrap.Namespace h.cfg pickHost pickCA = ⟨[], .err e⟩ := by
      unfold getSecret
      rw [hraw]
      dsimp only
      rw [hwrite]
    rw [OnConfig_of_err h env config pickHost pickCA [] e hns hsec]
    exact ⟨rfl, rfl⟩
  · intro path e hread hfail
    have hreads : (OnConfig h env config pickHost pickCA).reads =
        (getSecret env config.Bootstrap.Namespace h.cfg pickHost pickCA).reads := by
      rw [OnConfig_enabled h env config pickHost pickCA hns]
      split <;> rename_i hsec <;> rw [hsec]
    rw [hreads] at hread
    have hsec := getSecret_out_of_read env config.Bootstrap.Namespace h.cfg pickHost pickCA
      path e hread hfail
    rw [OnConfig_of_err h env config pickHost pickCA _ e hns hsec]
    exact ⟨rfl, rfl⟩
  · intro reads secret hsec
    rw [OnConfig_of_ret h env config pickHost pickCA reads secret hns hsec]
    exact ⟨rfl, rfl⟩

/-- Witness of C8: the certificate authority file of the cluster cannot be read. -/
theorem OnConfig_error_propagation_witness :
    (OnConfig (sampleHandler kubeconfigF) sampleEnv enabledConfig 0 0).reads =
        ["/etc/fleet/ca.crt"] ∧
      (OnConfig (sampleHandler kubeconfigF) sampleEnv enabledConfig 0 0).applied = [] ∧
      (OnConfig (sampleHandler kubeconfigF) sampleEnv enabledConfig 0 0).result =
        .err ⟨"no such file"⟩ :=
  ⟨by decide,
    (OnConfig_error_propagation (sampleHandler kubeconfigF) sampleEnv enabledConfig 0 0
      (by decide)).2.2.1 "/etc/fleet/ca.crt" ⟨"no such file"⟩ (by decide) rfl⟩

/-! ### The empty cluster map -/

/-- With an empty cluster map nothing is resolved. -/
theorem resolve_of_empty (rawConfig : clientcmdapi.Config) (pick : Nat)
    (hempty : rawConfig.Clusters.entries = []) : resolve rawConfig pick = none := by
  have hlook : rawConfig.Clusters.lookup rawConfig.CurrentContext = none :=
    rawConfig.Clusters.lookup_of_not_mem (by simp [hempty])
  simp [resolve, hlook, rawConfig.Clusters.rangeFirst_empty hempty pick]

/-- With an empty cluster map `getHost` panics, whatever the current context is. -/
theorem getHost_of_empty (cfg : ClientConfig) (rawConfig : clientcmdapi.Config) (pick : Nat)
    (hraw : cfg.RawConfig = .ok rawConfig) (hempty : rawConfig.Clusters.entries = []) :
    getHost cfg pick = .panic := by
  rw [getHost_eq cfg rawConfig pick hraw, resolve_of_empty rawConfig pick hempty]

/-- With an empty cluster map `getCA` panics, whatever the current context is. -/
theorem getCA_of_empty (env : Env) (cfg : ClientConfig) (rawConfig : clientcmdapi.Config)
    (pick : Nat) (hraw : cfg.RawConfig = .ok rawConfig)
    (hempty : rawConfig.Clusters.entries = []) :
    getCA env cfg pick = ⟨[], .panic⟩ := by
  rw [getCA_eq env cfg rawConfig pick hraw, resolve_of_empty rawConfig pick hempty]

/-- C5: for the kubeconfig without clusters, getHost neither returns a server nor an
error: the lookup misses, the iteration visits nothing, and reading the server of the
nil cluster panics.  The panic passes through getSecret and OnConfig, which return no
error and call nothing. -/
theorem empty_cluster_map_panics (pickHost pickCA : Nat) :
    getHost ⟨.ok kubeconfigEmpty⟩ pickHost = .panic ∧
      (∀ e, getHost ⟨.ok kubeconfigEmpty⟩ pickHost ≠ .err e) ∧
      getSecret sampleEnv "fleet-local" ⟨.ok kubeconfigEmpty⟩ pickHost pickCA = ⟨[], .panic⟩ ∧
      OnConfig (sampleHandler kubeconfigEmpty) sampleEnv enabledConfig pickHost pickCA =
        ⟨[], [], [], .panic⟩ := by
  have hhost : getHost ⟨.ok kubeconfigEmpty⟩ pickHost = .panic :=
    getHost_of_empty ⟨.ok kubeconfigEmpty⟩ kubeconfigEmpty pickHost rfl rfl
  have hsec : getSecret sampleEnv "fleet-local" ⟨.ok kubeconfigEmpty⟩ pickHost pickCA =
      ⟨[], .panic⟩ := by
    simp [getSecret, hhost, sampleEnv]
  refine ⟨hhost, ?_, hsec, ?_⟩
  · intro e he
    rw [hhost] at he
    cases he
  · rw [OnConfig_enabled _ _ _ _ _ (by decide)]
    show (match getSecret sampleEnv "fleet-local" ⟨.ok kubeconfigEmpty⟩ pickHost pickCA with
      | ⟨reads, .err e⟩ => (⟨reads, [], [], .err e⟩ : Run)
      | ⟨reads, .panic⟩ => ⟨reads, [], [], .panic⟩
      | ⟨reads, .ret secret⟩ =>
        ⟨reads, desiredObjects enabledConfig secret, [desiredObjects enabledConfig secret],
          .ofError (sampleApply.ApplyObjects (desiredObjects enabledConfig secret))⟩) = _
    rw [hsec]

/-! ### Determinism -/

/-- When the current context is a key of the map, or the map has at most one entry, the
resolved cluster does not depend on the iteration. -/
theorem resolve_stable (rawConfig : clientcmdapi.Config) (pick pick' : Nat)
    (hstable : rawConfig.CurrentContext ∈ rawConfig.Clusters.entries.map Prod.fst ∨
      rawConfig.Clusters.entries.length ≤ 1) :
    resolve rawConfig pick = resolve rawConfig pick' := by
  unfold resolve
  cases hlook : rawConfig.Clusters.lookup rawConfig.CurrentContext with
  | some c => rfl
  | none =>
    dsimp only
    rcases hstable with hkey | hlen
    · exfalso
      rcases List.mem_map.mp hkey with ⟨⟨k, c⟩, hmem, hk⟩
      dsimp only at hk
      subst hk
      rw [rawConfig.Clusters.lookup_of_mem hmem] at hlook
      cases hlook
    · unfold clientcmdapi.ClusterMap.rangeFirst
      match hent : rawConfig.Clusters.entries with
      | [] => simp
      | [x] => simp [Nat.mod_one]
      | x :: y :: rest =>
        rw [hent] at hlen
        simp at hlen

/-- C9, amended: when the current context of the kubeconfig is a key of its cluster map,
or the map has at most one entry, two invocations of OnConfig on the same inputs do
the same whatever the map iterations choose: the same files read, the same object
list handed to ApplyObjects, the same result. -/
theorem OnConfig_deterministic (h : handler) (env : Env) (config : config.Config)
    (pickHost pickCA pickHost' pickCA' : Nat)
    (hstable : ∀ rawConfig, h.cfg.RawConfig = .ok rawConfig →
      rawConfig.CurrentContext ∈ rawConfig.Clusters.entries.map Prod.fst ∨
        rawConfig.Clusters.entries.length ≤ 1) :
    OnConfig h env config pickHost pickCA = OnConfig h env config pickHost' pickCA' := by
  have hhost : getHost h.cfg pickHost = getHost h.cfg pickHost' := by
    cases hraw : h.cfg.RawConfig with
    | error e => simp [getHost, hraw]
    | ok rawConfig =>
      rw [getHost_eq h.cfg rawConfig pickHost hraw, getHost_eq h.cfg rawConfig pickHost' hraw,
        resolve_stable rawConfig pickHost pickHost' (hstable rawConfig hraw)]
  have hca : getCA env h.cfg pickCA = getCA env h.cfg pickCA' := by
    cases hraw : h.cfg.RawConfig with
    | error e => simp [getCA, hraw]
    | ok rawConfig =>
      rw [getCA_eq env h.cfg rawConfig pickCA hraw, getCA_eq env h.cfg rawConfig pickCA' hraw,
        resolve_stable rawConfig pickCA pickCA' (hstable rawConfig hraw)]
  unfold OnConfig getSecret
  rw [hhost, hca]

/-- Witness of C9 as amended: one cluster and an absent context, different iterations. -/
theorem OnConfig_deterministic_witness :
    OnConfig (sampleHandler kubeconfigOne) sampleEnv repoConfig 0 0 =
      OnConfig (sampleHandler kubeconfigOne) sampleEnv repoConfig 3 8 :=
  OnConfig_deterministic (sampleHandler kubeconfigOne) sampleEnv repoConfig 0 0 3 8
    (fun rawConfig hraw => by
      have hcfg : kubeconfigOne = rawConfig := by
        simpa [sampleHandler] using hraw
      subst hcfg
      exact Or.inr (by decide))

/-- C9, counterexample: with an absent current context and two clusters, two invocations
on the same inputs hand different object lists to ApplyObjects. -/
theorem OnConfig_not_idempotent :
    (OnConfig (sampleHandler kubeconfigTwo) sampleEnv enabledConfig 0 0).applied ≠
      (OnConfig (sampleHandler kubeconfigTwo) sampleEnv enabledConfig 1 1).applied := by
  decide

/-- C10: with an absent current context and two clusters, the secret can hold the server
of the first cluster and the certificate authority of the second; no entry of the map
has both. -/
theorem secret_mixes_entries :
    ∃ secret,
      getSecret sampleEnv "fleet-local" ⟨.ok kubeconfigTwo⟩ 0 1 = ⟨[], .ret secret⟩ ∧
      secret.Data =
        [("value", bytesOf "kubeconfig"), ("apiServerURL", bytesOf "https://10.0.0.1:6443"),
          ("apiServerCA", bytesOf "CERT_B")] ∧
      ¬ ∃ entry ∈ kubeconfigTwo.Clusters.entries,
          bytesOf entry.2.Server = bytesOf "https://10.0.0.1:6443" ∧
          (entry.2.CertificateAuthorityData = bytesOf "CERT_B" ∨
            (entry.2.CertificateAuthorityData = [] ∧
              sampleEnv.ReadFile entry.2.CertificateAuthority = .ok (bytesOf "CERT_B"))) := by
  refine ⟨_, rfl, ?_, ?_⟩
  · decide
  · decide

/-! ### The splitter -/

namespace splitter

theorem pieces_skip : ∀ (cs : List Char) (k : Nat), pieces cs k = pieces (cs.drop k) 0
  | [], k => by simp [pieces]
  | _ :: _, 0 => rfl
  | _ :: cs, k + 1 => by
    rw [pieces, List.drop_succ_cons]
    exact pieces_skip cs k

theorem isSpace_comma : isSpace ',' = false := by decide

/-- Comma pieces of a text. -/
theorem commas_nil : ([] : List Char).splitOn ',' = [[]] := List.splitOn_nil ','

theorem commas_cons_comma (s : List Char) : (',' :: s).splitOn ',' = [] :: s.splitOn ',' := by
  simp [List.splitOn, List.splitOnP_cons]

theorem commas_cons_other (c : Char) (s : List Char) (hc : c ≠ ',') :
    (c :: s).splitOn ',' = (s.splitOn ',').modifyHead (c :: ·) := by
  simp [List.splitOn, List.splitOnP_cons, hc]

theorem commas_ne_nil (s : List Char) : s.splitOn ',' ≠ [] := List.splitOnP_ne_nil _ _

theorem commas_space_append : ∀ (w s : List Char), (∀ x ∈ w, isSpace x = true) →
    (w ++ s).splitOn ',' = (s.splitOn ',').modifyHead (w ++ ·)
  | [], s, _ => by
    rw [List.nil_append]
    cases s.splitOn ',' <;> simp [List.modifyHead]
  | c :: w, s, hw => by
    have hc : c ≠ ',' := by
      intro hc
      have := hw c (List.mem_cons_self _ _)
      rw [hc, isSpace_comma] at this
      cases this
    rw [List.cons_append, commas_cons_other c _ hc,
      commas_space_append w s (fun x hx => hw x (List.mem_cons_of_mem _ hx))]
    cases s.splitOn ',' <;> simp [List.modifyHead]


theorem matchLen_of_dropWhile (s rest : List Char) (h : s.dropWhile isSpace = ',' :: rest) :
    matchLen s = some ((s.takeWhile isSpace).length + 1 + (rest.takeWhile isSpace).length) := by
  simp [matchLen, h]

theorem dropWhile_of_matchLen (s : List Char) (k : Nat) (h : matchLen s = some k) :
    ∃ rest, s.dropWhile isSpace = ',' :: rest := by
  unfold matchLen at h
  split at h
  · cases h
  · rename_i c rest hdrop
    by_cases hc : c = ','
    · exact ⟨rest, by rw [hdrop, hc]⟩
    · rw [if_neg hc] at h
      cases h

/-- After a match the scan continues behind the white space that follows the comma. -/
theorem pieces_match (c : Char) (cs rest : List Char)
    (h : (c :: cs).dropWhile isSpace = ',' :: rest) :
    pieces (c :: cs) 0 = [] :: pieces (rest.dropWhile isSpace) 0 := by
  have hsplit : c :: cs =
      ((c :: cs).takeWhile isSpace ++ ',' :: rest.takeWhile isSpace) ++ rest.dropWhile isSpace := by
    conv_lhs => rw [← List.takeWhile_append_dropWhile isSpace (c :: cs), h,
      ← List.takeWhile_append_dropWhile isSpace rest]
    simp
  have hlen : (((c :: cs).takeWhile isSpace ++ ',' :: rest.takeWhile isSpace).length) =
      ((c :: cs).takeWhile isSpace).length + 1 + (rest.takeWhile isSpace).length := by
    simp
    omega
  have hdrop : (c :: cs).drop
      (((c :: cs).takeWhile isSpace).length + 1 + (rest.takeWhile isSpace).length) =
      rest.dropWhile isSpace := by
    have hgen : ∀ (l a b : List Char), l = a ++ b → l.drop a.length = b := by
      intro l a b hl
      subst hl
      exact List.drop_left _ _
    rw [← hlen]
    exact hgen _ _ _ hsplit
  rw [pieces, matchLen_of_dropWhile _ _ h]
  dsimp only
  rw [pieces_skip]
  congr 2
  rw [← hdrop]
  have : ((c :: cs).takeWhile isSpace).length + 1 + (rest.takeWhile isSpace).length =
      (((c :: cs).takeWhile isSpace).length + 1 + (rest.takeWhile isSpace).length - 1) + 1 := by
    omega
  conv_rhs => rw [this, List.drop_succ_cons]

theorem pieces_nomatch (c : Char) (cs : List Char) (h : matchLen (c :: cs) = none) :
    pieces (c :: cs) 0 = (pieces cs 0).modifyHead (c :: ·) := by
  rw [pieces, h]


theorem isSpace_head_of_dropWhile_eq (c : Char) (cs : List Char)
    (h : (c :: cs).dropWhile isSpace = c :: cs) : isSpace c = false := by
  cases hc : isSpace c with
  | false => rfl
  | true =>
    rw [List.dropWhile_cons_of_pos hc] at h
    have hle := (List.dropWhile_suffix (l := cs) isSpace).length_le
    rw [h] at hle
    simp at hle

/-- The first comma piece of a text without leading white space has none. -/
theorem head_piece_dropWhile (r p : List Char) (ps : List (List Char))
    (hr : r.dropWhile isSpace = r) (h : r.splitOn ',' = p :: ps) :
    p.dropWhile isSpace = p := by
  cases r with
  | nil =>
    rw [commas_nil] at h
    cases h
    rfl
  | cons c cs =>
    by_cases hc : c = ','
    · subst hc
      rw [commas_cons_comma] at h
      cases h
      rfl
    · rw [commas_cons_other c cs hc] at h
      have hsp := isSpace_head_of_dropWhile_eq c cs hr
      cases hcs : cs.splitOn ',' with
      | nil => exact absurd hcs (commas_ne_nil cs)
      | cons p' ps' =>
        rw [hcs] at h
        simp only [List.modifyHead] at h
        cases h
        rw [List.dropWhile_cons_of_neg (by simp [hsp])]

/-- A text with two or more comma pieces starts with the first piece and a comma. -/
theorem commas_two (cs p q : List Char) (qs : List (List Char))
    (h : cs.splitOn ',' = p :: q :: qs) : ∃ cs', cs = p ++ ',' :: cs' := by
  have hjoin : [','].intercalate (cs.splitOn ',') = cs := List.intercalate_splitOn cs ','
  rw [h] at hjoin
  refine ⟨[','].intercalate (q :: qs), ?_⟩
  rw [← hjoin]
  simp [List.intercalate, List.intersperse]

theorem rdropWhile_cons (c : Char) (p : List Char)
    (h : ¬ (isSpace c = true ∧ ∀ x ∈ p, isSpace x = true)) :
    (c :: p).rdropWhile isSpace = c :: p.rdropWhile isSpace := by
  unfold List.rdropWhile
  rw [List.reverse_cons, List.dropWhile_append]
  split
  · rename_i hempty
    have hall : ∀ x ∈ p, isSpace x = true := by
      have := List.isEmpty_iff.mp hempty
      rw [List.dropWhile_eq_nil_iff] at this
      intro x hx
      exact this x (List.mem_reverse.mpr hx)
    have hc : isSpace c = false := by
      cases hc : isSpace c with
      | false => rfl
      | true => exact absurd ⟨hc, hall⟩ h
    rw [List.isEmpty_iff.mp hempty, List.dropWhile_cons_of_neg (by simp [hc])]
    simp
  · simp

theorem matchLen_ne_none_of_space (c : Char) (p cs' : List Char) (hc : isSpace c = true)
    (hp : ∀ x ∈ p, isSpace x = true) : matchLen (c :: (p ++ ',' :: cs')) ≠ none := by
  have hdrop : (c :: (p ++ ',' :: cs')).dropWhile isSpace = ',' :: cs' := by
    rw [← List.cons_append, List.dropWhile_append_of_pos, List.dropWhile_cons_of_neg]
    · simp [isSpace_comma]
    · intro x hx
      rcases List.mem_cons.mp hx with rfl | hx
      · exact hc
      · exact hp x hx
  rw [matchLen_of_dropWhile _ _ hdrop]
  simp

/-- The pieces between the matches are the comma pieces with the white space next to
each comma removed. -/
theorem pieces_eq_trimInner : ∀ (n : Nat) (s : List Char), s.length ≤ n →
    pieces s 0 = trimInner (s.splitOn ',')
  | _, [], _ => by simp [pieces, commas_nil, trimInner]
  | 0, _ :: _, h => by simp at h
  | n + 1, c :: cs, h => by
    have hcs : cs.length ≤ n := by simpa using h
    cases hm : matchLen (c :: cs) with
    | some k =>
      obtain ⟨rest, hdrop⟩ := dropWhile_of_matchLen _ _ hm
      have hrest : rest.length ≤ n := by
        have hle := (List.dropWhile_suffix (l := c :: cs) isSpace).length_le
        rw [hdrop] at hle
        simp at hle
        omega
      have hr : (rest.dropWhile isSpace).length ≤ n :=
        le_trans (List.dropWhile_suffix (l := rest) isSpace).length_le hrest
      have ih := pieces_eq_trimInner n (rest.dropWhile isSpace) hr
      have htake : ∀ (l : List Char), ∀ x ∈ l.takeWhile isSpace, isSpace x = true :=
        fun l x hx => List.mem_takeWhile_imp hx
      have hcommas : (c :: cs).splitOn ',' =
          (c :: cs).takeWhile isSpace ::
            ((rest.dropWhile isSpace).splitOn ',').modifyHead (rest.takeWhile isSpace ++ ·) := by
        conv_lhs => rw [← List.takeWhile_append_dropWhile isSpace (c :: cs), hdrop]
        rw [commas_space_append _ _ (htake _), commas_cons_comma]
        conv_lhs => rw [← List.takeWhile_append_dropWhile isSpace rest]
        rw [commas_space_append _ _ (htake _)]
        simp [List.modifyHead]
      rw [pieces_match c cs rest hdrop, ih, hcommas]
      cases hps : (rest.dropWhile isSpace).splitOn ',' with
      | nil => exact absurd hps (commas_ne_nil _)
      | cons p ps =>
        have hp := head_piece_dropWhile _ p ps (List.dropWhile_idempotent _ _) hps
        have hw : ((c :: cs).takeWhile isSpace).rdropWhile isSpace = [] :=
          List.rdropWhile_eq_nil_iff.mpr (htake _)
        have hpre : (rest.takeWhile isSpace ++ p).dropWhile isSpace = p := by
          rw [List.dropWhile_append_of_pos (htake _), hp]
        cases ps with
        | nil => simp [List.modifyHead, trimInner, trimAfter, hw, hpre]
        | cons q qs => simp [List.modifyHead, trimInner, trimAfter, hw, hpre]
    | none =>
      have hc : c ≠ ',' := by
        intro hc
        subst hc
        have hdrop : (',' :: cs).dropWhile isSpace = ',' :: cs :=
          List.dropWhile_cons_of_neg (by simp [isSpace_comma])
        rw [matchLen_of_dropWhile _ _ hdrop] at hm
        cases hm
      rw [pieces_nomatch c cs hm, pieces_eq_trimInner n cs hcs, commas_cons_other c cs hc]
      cases hps : cs.splitOn ',' with
      | nil => exact absurd hps (commas_ne_nil _)
      | cons p ps =>
        cases ps with
        | nil => simp [List.modifyHead, trimInner]
        | cons q qs =>
          have hkeep : (c :: p).rdropWhile isSpace = c :: p.rdropWhile isSpace := by
            apply rdropWhile_cons
            rintro ⟨hsc, hsp⟩
            obtain ⟨cs', hcs'⟩ := commas_two cs p q qs hps
            rw [hcs'] at hm
            exact matchLen_ne_none_of_space c p cs' hsc hsp hm
          simp [List.modifyHead, trimInner, hkeep]


theorem trimAfter_eq_map : ∀ (l : List (List Char)),
    (∀ p, l.getLast? = some p → spec.trim p = p.dropWhile isSpace) →
    trimAfter l = l.map spec.trim
  | [], _ => rfl
  | [p], h => by
    simp [trimAfter, h p (by simp)]
  | p :: q :: r, h => by
    have ih := trimAfter_eq_map (q :: r) (fun x hx => h x (by simpa using hx))
    simp [trimAfter, ih, spec.trim]

theorem trimInner_eq_map (l : List (List Char))
    (hhead : ∀ p, l.head? = some p → p.dropWhile isSpace = p)
    (hlast : ∀ p, l.getLast? = some p → spec.trim p = p.dropWhile isSpace) :
    trimInner l = l.map spec.trim := by
  match l, hhead, hlast with
  | [], _, _ => rfl
  | [p], hhead, hlast =>
    have h1 := hhead p rfl
    have h2 := hlast p (by simp)
    simp [trimInner, h2, h1]
  | p :: q :: r, hhead, hlast =>
    have h1 := hhead p rfl
    have h2 := trimAfter_eq_map (q :: r) (fun x hx => hlast x (by simpa using hx))
    simp [trimInner, h2, spec.trim, h1]

theorem getLast_suffix_intercalate (sep : List Char) : ∀ (l : List (List Char)) (p : List Char),
    l.getLast? = some p → p <:+ sep.intercalate l
  | [], p, h => by simp at h
  | [q], p, h => by
    simp at h
    subst h
    simp [List.intercalate, List.intersperse]
  | q :: q' :: r, p, h => by
    have ih := getLast_suffix_intercalate sep (q' :: r) p (by simpa using h)
    have hjoin : sep.intercalate (q :: q' :: r) = (q ++ sep) ++ sep.intercalate (q' :: r) := by
      simp [List.intercalate, List.intersperse]
    rw [hjoin]
    exact ih.trans (List.suffix_append _ _)

/-- The last comma piece of a text is a suffix of it. -/
theorem last_piece_suffix (s p : List Char) (h : (s.splitOn ',').getLast? = some p) : p <:+ s := by
  have := getLast_suffix_intercalate [','] (s.splitOn ',') p h
  rwa [List.intercalate_splitOn] at this

theorem trim_of_suffix (s p : List Char)
    (hlast : ∀ c, s.getLast? = some c → isSpace c = false) (hp : p <:+ s) :
    spec.trim p = p.dropWhile isSpace := by
  unfold spec.trim
  rw [List.rdropWhile_eq_self_iff]
  intro hne
  have hsuf : p.dropWhile isSpace <:+ s := (List.dropWhile_suffix isSpace).trans hp
  have hs : s ≠ [] := by
    intro hs
    subst hs
    exact hne (List.suffix_nil.mp hsuf)
  have hget := hsuf.getLast hne
  have := hlast (s.getLast hs) (List.getLast?_eq_getLast _ hs)
  rw [hget]
  simp [this]

theorem dropWhile_eq_self_of_head (s : List Char)
    (hfirst : ∀ c, s.head? = some c → isSpace c = false) : s.dropWhile isSpace = s := by
  cases s with
  | nil => rfl
  | cons c cs =>
    rw [List.dropWhile_cons_of_neg]
    simp [hfirst c rfl]

/-- On a text that neither starts nor ends with white space the pieces between the matches
are the trimmed comma pieces. -/
theorem pieces_eq_map_trim (s : List Char)
    (hfirst : ∀ c, s.head? = some c → isSpace c = false)
    (hlast : ∀ c, s.getLast? = some c → isSpace c = false) :
    pieces s 0 = (s.splitOn ',').map spec.trim := by
  rw [pieces_eq_trimInner s.length s (le_refl _)]
  apply trimInner_eq_map
  · intro p hp
    cases hps : s.splitOn ',' with
    | nil => exact absurd hps (commas_ne_nil s)
    | cons p' ps =>
      rw [hps] at hp
      simp only [List.head?_cons, Option.some.injEq] at hp
      subst hp
      exact head_piece_dropWhile s p' ps (dropWhile_eq_self_of_head s hfirst) hps
  · intro p hp
    exact trim_of_suffix s p hlast (last_piece_suffix s p hp)

/-- The result of the splitter on any text: the comma pieces of the text, with the white
space next to each comma removed and the white space at the two ends of the text kept. -/
theorem Split_eq_trimInner (dirs : String) :
    Split dirs = (trimInner (dirs.data.splitOn ',')).map String.mk := by
  unfold Split
  rw [pieces_eq_trimInner dirs.data.length dirs.data (le_refl _)]

/-- On a text that neither starts nor ends with white space the splitter gives the bundle
directories of the specification. -/
theorem Split_eq_bundleDirs (dirs : String)
    (hfirst : ∀ c, dirs.data.head? = some c → isSpace c = false)
    (hlast : ∀ c, dirs.data.getLast? = some c → isSpace c = false) :
    Split dirs = spec.bundleDirs dirs := by
  unfold Split spec.bundleDirs
  rw [pieces_eq_map_trim dirs.data hfirst hlast, List.map_map]
  rfl

end splitter

/-! ### Bundle directories -/

/-- Every object list handed to ApplyObjects is the desired list for some secret. -/
theorem applied_desired (h : handler) (env : Env) (config : config.Config)
    (pickHost pickCA : Nat) (objs : List runtime.Object)
    (happlied : objs ∈ (OnConfig h env config pickHost pickCA).applied) :
    ∃ secret, objs = desiredObjects config secret := by
  unfold OnConfig at happlied
  split at happlied
  · simp at happlied
  · split at happlied
    · simp at happlied
    · simp at happlied
    · rename_i reads secret hsec
      exact ⟨secret, by simpa using happlied⟩

/-- The only git repository among the desired objects is the bootstrap repository. -/
theorem gitRepo_of_mem_desired (config : config.Config) (secret : corev1.Secret)
    (g : fleet.GitRepo) (hg : runtime.Object.GitRepo g ∈ desiredObjects config secret) :
    runtime.Object.GitRepo g = gitRepoObject config := by
  unfold desiredObjects at hg
  split at hg
  · simpa [baseObjects] using hg
  · simp [baseObjects] at hg

/-- When the bundle directories string neither starts nor ends with white space, the
BundleDirs of the GitRepo handed to ApplyObjects is the string split on commas with the
white space trimmed around each entry. -/
theorem bundleDirs_split (h : handler) (env : Env) (config : config.Config)
    (pickHost pickCA : Nat) (objs : List runtime.Object) (g : fleet.GitRepo)
    (happlied : objs ∈ (OnConfig h env config pickHost pickCA).applied)
    (hg : runtime.Object.GitRepo g ∈ objs)
    (hfirst : ∀ c, config.Bootstrap.Dirs.data.head? = some c → splitter.isSpace c = false)
    (hlast : ∀ c, config.Bootstrap.Dirs.data.getLast? = some c → splitter.isSpace c = false) :
    g.Spec.BundleDirs = spec.bundleDirs config.Bootstrap.Dirs := by
  obtain ⟨secret, hobjs⟩ := applied_desired h env config pickHost pickCA objs happlied
  subst hobjs
  have hgit := gitRepo_of_mem_desired config secret g hg
  unfold gitRepoObject at hgit
  cases hgit
  exact splitter.Split_eq_bundleDirs config.Bootstrap.Dirs hfirst hlast

/-- The directories "a , b,c", with white space only next to the commas. -/
theorem bundleDirs_split_witness :
    ∃ objs g, objs ∈ (OnConfig (sampleHandler kubeconfigA) sampleEnv tidyConfig 0 0).applied ∧
      runtime.Object.GitRepo g ∈ objs ∧
      g.Spec.BundleDirs = spec.bundleDirs "a , b,c" ∧
      spec.bundleDirs "a , b,c" = ["a", "b", "c"] := by
  refine ⟨desiredObjects tidyConfig secretA,
    { ObjectMeta := { Name := "bootstrap", Namespace := "fleet-local" }
      Spec :=
        { Repo := "https://example.com/repo", Branch := "master", ClientSecretName := "git-auth",
          BundleDirs := ["a", "b", "c"] } }, by decide, by decide, ?_, by decide⟩
  exact bundleDirs_split (sampleHandler kubeconfigA) sampleEnv tidyConfig 0 0
    (desiredObjects tidyConfig secretA) _ (by decide) (by decide) (by decide) (by decide)

/-- C4: for the directories " a , b,c " the BundleDirs handed to ApplyObjects are
" a", "b", "c ": the separator removes the white space next to each comma and misses the
white space at the two ends of the string, while splitting on commas and trimming each
entry gives "a", "b", "c". -/
theorem bundleDirs_keeps_outer_space :
    ∃ objs g, objs ∈ (OnConfig (sampleHandler kubeconfigA) sampleEnv repoConfig 0 0).applied ∧
      runtime.Object.GitRepo g ∈ objs ∧
      g.Spec.BundleDirs = [" a", "b", "c "] ∧
      spec.bundleDirs repoConfig.Bootstrap.Dirs = ["a", "b", "c"] ∧
      g.Spec.BundleDirs ≠ spec.bundleDirs repoConfig.Bootstrap.Dirs := by
  refine ⟨desiredObjects repoConfig secretA,
    { ObjectMeta := { Name := "bootstrap", Namespace := "fleet-local" }
      Spec :=
        { Repo := "https://example.com/repo", Branch := "master", ClientSecretName := "git-auth",
          BundleDirs := [" a", "b", "c "] } }, by decide, by decide, rfl, by decide, by decide⟩

/-- The empty directories string gives one empty entry. -/
theorem Split_empty : splitter.Split "" = [""] := by
  decide

end bootstrap
